import Mathlib

/-!
Verification development for the claw-pen Tauri client
(`src/tauri-app/src/main.rs`): device-identity challenge-response
session manager.  Strings on the wire are modelled as `List Char`
(one entry per character; all protocol markers are ASCII, so byte
indices in the Rust source coincide with character indices here).
Machine integers are modelled as `Nat` with explicit `% 2^w` where
overflow matters.
-/

namespace ClawPen

/-! ## Definitions (embedded from the source) -/

/-- The character `"` (double quote), used by the nonce extractor. -/
def dq : Char := Char.ofNat 34

/-- Embedding of Rust `str::find(pat)`: index of the first occurrence of
`pat` as a contiguous substring of `s`, or `none`. -/
def findSub (pat : List Char) : List Char → Option Nat
  | [] => if pat.isPrefixOf ([] : List Char) then some 0 else none
  | c :: cs =>
    if pat.isPrefixOf (c :: cs) then some 0
    else (findSub pat cs).map (· + 1)

/-- Embedding of Rust `str::contains(pat)`. -/
def containsSub (s pat : List Char) : Bool :=
  (findSub pat s).isSome

/-- The marker searched for by `extract_nonce`: `"nonce":"`. -/
def nonceMarker : List Char := "\"nonce\":\"".data

/-- Embedding of `extract_nonce` (src/tauri-app/src/main.rs:273-281):
find `"nonce":"`, skip its 9 characters, take up to the next `"`. -/
def extract_nonce (json : List Char) : Option (List Char) :=
  match findSub nonceMarker json with
  | some start =>
    let start := start + 9
    match findSub "\"".data (json.drop start) with
    | some e => some ((json.drop start).take e)
    | none => none
  | none => none

/-- `pat` occurs as a substring of `s` at index `i`. -/
def OccursAt (pat s : List Char) (i : Nat) : Prop :=
  pat.isPrefixOf (s.drop i) = true

/-- `i` is the index of the first occurrence of `pat` in `s`. -/
def FirstOccurrence (pat s : List Char) (i : Nat) : Prop :=
  OccursAt pat s i ∧ ∀ j, j < i → ¬ OccursAt pat s j

/-! ### SHA-256 (FIPS 180-4), the hash applied to the public key via the
`sha2` crate.  Words are `Nat` reduced mod `2^32`. -/

/-- Truncation to a 32-bit word. -/
def w32 (n : Nat) : Nat := n % 4294967296

/-- 32-bit right rotation. -/
def rotr32 (n x : Nat) : Nat := w32 ((x >>> n) ||| (x <<< (32 - n)))

/-- 32-bit bitwise complement. -/
def not32 (x : Nat) : Nat := x ^^^ 4294967295

def sha2Ch (x y z : Nat) : Nat := (x &&& y) ^^^ (not32 x &&& z)

def sha2Maj (x y z : Nat) : Nat := (x &&& y) ^^^ (x &&& z) ^^^ (y &&& z)

def bsig0 (x : Nat) : Nat := rotr32 2 x ^^^ rotr32 13 x ^^^ rotr32 22 x

def bsig1 (x : Nat) : Nat := rotr32 6 x ^^^ rotr32 11 x ^^^ rotr32 25 x

def ssig0 (x : Nat) : Nat := rotr32 7 x ^^^ rotr32 18 x ^^^ (x >>> 3)

def ssig1 (x : Nat) : Nat := rotr32 17 x ^^^ rotr32 19 x ^^^ (x >>> 10)

/-- The 64 SHA-256 round constants (FIPS 180-4 §4.2.2, in decimal). -/
def K256 : List Nat :=
  [1116352408, 1899447441, 3049323471, 3921009573,
   961987163, 1508970993, 2453635748, 2870763221,
   3624381080, 310598401, 607225278, 1426881987,
   1925078388, 2162078206, 2614888103, 3248222580,
   3835390401, 4022224774, 264347078, 604807628,
   770255983, 1249150122, 1555081692, 1996064986,
   2554220882, 2821834349, 2952996808, 3210313671,
   3336571891, 3584528711, 113926993, 338241895,
   666307205, 773529912, 1294757372, 1396182291,
   1695183700, 1986661051, 2177026350, 2456956037,
   2730485921, 2820302411, 3259730800, 3345764771,
   3516065817, 3600352804, 4094571909, 275423344,
   430227734, 506948616, 659060556, 883997877,
   958139571, 1322822218, 1537002063, 1747873779,
   1955562222, 2024104815, 2227730452, 2361852424,
   2428436474, 2756734187, 3204031479, 3329325298]

/-- The eight 32-bit working variables of the compression function. -/
structure Hash8 where
  a : Nat
  b : Nat
  c : Nat
  d : Nat
  e : Nat
  f : Nat
  g : Nat
  h : Nat
deriving DecidableEq

/-- Initial SHA-256 hash value. -/
def sha256H0 : Hash8 :=
  ⟨1779033703, 3144134277, 1013904242, 2773480762,
   1359893119, 2600822924, 528734635, 1541459225⟩

/-- One step of message-schedule extension: append
`σ1(w[t-2]) + w[t-7] + σ0(w[t-15]) + w[t-16]`. -/
def scheduleStep (ws : List Nat) : List Nat :=
  let n := ws.length
  ws ++ [w32 (ssig1 (ws.getD (n - 2) 0) + ws.getD (n - 7) 0 +
              ssig0 (ws.getD (n - 15) 0) + ws.getD (n - 16) 0)]

/-- Extend a 16-word block to the 64-word message schedule. -/
def msgSchedule (block : List Nat) : List Nat :=
  (List.range 48).foldl (fun ws _ => scheduleStep ws) block

/-- One SHA-256 round on the working variables. -/
def compressStep (st : Hash8) (kw : Nat × Nat) : Hash8 :=
  let t1 := w32 (st.h + bsig1 st.e + sha2Ch st.e st.f st.g + kw.1 + kw.2)
  let t2 := w32 (bsig0 st.a + sha2Maj st.a st.b st.c)
  ⟨w32 (t1 + t2), st.a, st.b, st.c, w32 (st.d + t1), st.e, st.f, st.g⟩

/-- Process one 16-word block. -/
def compressBlock (st : Hash8) (block : List Nat) : Hash8 :=
  let fin := (K256.zip (msgSchedule block)).foldl compressStep st
  ⟨w32 (st.a + fin.a), w32 (st.b + fin.b), w32 (st.c + fin.c), w32 (st.d + fin.d),
   w32 (st.e + fin.e), w32 (st.f + fin.f), w32 (st.g + fin.g), w32 (st.h + fin.h)⟩

/-- `k` big-endian bytes of `n`. -/
def beBytes (k n : Nat) : List Nat :=
  (List.range k).map (fun i => (n >>> (8 * (k - 1 - i))) % 256)

/-- SHA-256 padding: append `0x80`, zero bytes to 56 mod 64, then the
64-bit big-endian bit length. -/
def shaPad (msg : List Nat) : List Nat :=
  let l := msg.length
  msg ++ [128] ++ List.replicate ((64 - (l + 9) % 64) % 64) 0 ++ beBytes 8 (8 * l)

/-- Group bytes into 32-bit big-endian words. -/
def bytesToWords : List Nat → List Nat
  | b0 :: b1 :: b2 :: b3 :: rest =>
    (b0 * 16777216 + b1 * 65536 + b2 * 256 + b3) :: bytesToWords rest
  | _ => []

/-- Split a word list into 16-word blocks. -/
def chunks16 (ws : List Nat) : List (List Nat) :=
  if h : ws = [] then []
  else ws.take 16 :: chunks16 (ws.drop 16)
termination_by ws.length
decreasing_by
  rw [List.length_drop]
  have := List.length_pos.mpr h
  omega

/-- SHA-256 of a byte string, as a list of 32 bytes. -/
def sha256 (msg : List Nat) : List Nat :=
  let st := (chunks16 (bytesToWords (shaPad msg))).foldl compressBlock sha256H0
  beBytes 4 st.a ++ beBytes 4 st.b ++ beBytes 4 st.c ++ beBytes 4 st.d ++
  beBytes 4 st.e ++ beBytes 4 st.f ++ beBytes 4 st.g ++ beBytes 4 st.h

/-! ### Lowercase hex encoding (`hex::encode`). -/

/-- The sixteen lowercase hex digits. -/
def hexDigits : List Char := "0123456789abcdef".data

/-- Hex digit for a value below 16. -/
def hexDigit (n : Nat) : Char := hexDigits.getD n '0'

/-- `hex::encode`: two lowercase hex digits per byte. -/
def hexEncode (bs : List Nat) : String :=
  ⟨bs.flatMap (fun b => [hexDigit (b / 16), hexDigit (b % 16)])⟩

/-! ### Base64 (standard alphabet with padding): the `base64` crate
`STANDARD` engine used for the persisted private key. -/

/-- The standard base64 alphabet. -/
def b64Alphabet : List Char :=
  "ABCDEFGHIJKLMNOPQRSTUVWXYZabcdefghijklmnopqrstuvwxyz0123456789+/".data

/-- Character for a sextet value below 64. -/
def b64Char (n : Nat) : Char := b64Alphabet.getD n '?'

/-- The padding character `=`. -/
def padChar : Char := Char.ofNat 61

/-- `BASE64.encode`: three bytes become four characters; a remainder of
one or two bytes is padded with `=`. -/
def b64Encode : List Nat → List Char
  | a :: b :: c :: rest =>
    b64Char ((a * 65536 + b * 256 + c) / 262144) ::
      b64Char ((a * 65536 + b * 256 + c) / 4096 % 64) ::
      b64Char ((a * 65536 + b * 256 + c) / 64 % 64) ::
      b64Char ((a * 65536 + b * 256 + c) % 64) :: b64Encode rest
  | [a, b] =>
    [b64Char (a / 4), b64Char (a % 4 * 16 + b / 16), b64Char (b % 16 * 4), padChar]
  | [a] => [b64Char (a / 4), b64Char (a % 4 * 16), padChar, padChar]
  | [] => []

/-- Sextet value of an alphabet character. -/
def b64DecodeChar (c : Char) : Option Nat := b64Alphabet.indexOf? c

/-- `BASE64.decode`: canonical decoding — requires padding to a multiple
of four characters and zero trailing bits (the crate's `STANDARD`
engine rejects both invalid padding and set trailing bits). -/
def b64Decode : List Char → Option (List Nat)
  | [] => some []
  | c1 :: c2 :: c3 :: c4 :: rest =>
    match b64DecodeChar c1, b64DecodeChar c2 with
    | some s1, some s2 =>
      if c3 = padChar then
        if c4 = padChar ∧ rest = [] then
          if s2 % 16 = 0 then some [s1 * 4 + s2 / 16] else none
        else none
      else
        match b64DecodeChar c3 with
        | some s3 =>
          if c4 = padChar then
            if rest = [] then
              if s3 % 4 = 0 then
                some [s1 * 4 + s2 / 16, s2 % 16 * 16 + s3 / 4]
              else none
            else none
          else
            match b64DecodeChar c4 with
            | some s4 =>
              (b64Decode rest).map (fun bs =>
                (s1 * 4 + s2 / 16) :: (s2 % 16 * 16 + s3 / 4) ::
                  (s3 % 4 * 64 + s4) :: bs)
            | none => none
        | none => none
    | _, _ => none
  | _ => none

/-! ### Identity store (`load_or_create_device_keys`,
src/tauri-app/src/main.rs:56-93).  The filesystem is modelled by passing
the persisted JSON record (or `none` when the key file does not exist)
explicitly; the Ed25519 public-key derivation performed by the
`ed25519_dalek` crate (`signing_key.verifying_key().to_bytes()`) is a
parameter `pubOf` of the creation path. -/

/-- In-memory device identity (`struct DeviceKeys`): the 32 secret key
bytes (`SigningKey::to_bytes`) and the derived device id. -/
structure DeviceKeys where
  signing_key : List Nat
  device_id : String
deriving DecidableEq

/-- The persisted JSON record: `serde_json` field lookups
(`keys["privateKey"].as_str()` etc.) yield an `Option` per field. -/
structure StoredDeviceRecord where
  privateKey : Option String
  publicKey : Option String
  deviceId : Option String
deriving DecidableEq

/-- The distinct error exits of the stored-record branch:
`anyhow!("Missing privateKey")`, the base64 `DecodeError` propagated by
`?`, and `anyhow!("Invalid key length")`. -/
inductive IdentityLoadError
  | missingPrivateKey
  | invalidBase64
  | invalidKeyLength
deriving DecidableEq

/-- The `path.exists()` branch of `load_or_create_device_keys`
(src/tauri-app/src/main.rs:59-70): decode the stored private key,
require exactly 32 bytes, and take the stored device id, substituting
`"unknown"` when the field is absent (`unwrap_or("unknown")`). -/
def load_device_keys (rec : StoredDeviceRecord) : Except IdentityLoadError DeviceKeys :=
  match rec.privateKey with
  | none => .error .missingPrivateKey
  | some pk64 =>
    match b64Decode pk64.data with
    | none => .error .invalidBase64
    | some bytes =>
      if bytes.length = 32 then
        .ok { signing_key := bytes, device_id := rec.deviceId.getD "unknown" }
      else .error .invalidKeyLength

/-- The generation branch (src/tauri-app/src/main.rs:73-92): derive the
public key, hash it to the device id, and persist all three fields. -/
def create_device_keys (pubOf : List Nat → List Nat) (sk : List Nat) :
    DeviceKeys × StoredDeviceRecord :=
  ({ signing_key := sk, device_id := hexEncode (sha256 (pubOf sk)) },
   { privateKey := some ⟨b64Encode sk⟩,
     publicKey := some ⟨b64Encode (pubOf sk)⟩,
     deviceId := some (hexEncode (sha256 (pubOf sk))) })

/-- `load_or_create_device_keys`: load when a record is persisted,
otherwise generate from fresh randomness `freshSk` and persist.  The
second component of the result is the newly persisted record, if any. -/
def load_or_create_device_keys (pubOf : List Nat → List Nat)
    (stored : Option StoredDeviceRecord) (freshSk : List Nat) :
    Except IdentityLoadError (DeviceKeys × Option StoredDeviceRecord) :=
  match stored with
  | some rec => (load_device_keys rec).map (fun k => (k, none))
  | none =>
    .ok ((create_device_keys pubOf freshSk).1,
         some (create_device_keys pubOf freshSk).2)

/-- A 32-byte all-zero secret key, used as concrete witness input. -/
def skZero : List Nat := List.replicate 32 0

/-- A concrete public-key derivation for witnesses. -/
def pubZero : List Nat → List Nat := fun _ => List.replicate 32 0

/-- Base64 of 32 zero bytes. -/
def zeroKeyB64 : String := "AAAAAAAAAAAAAAAAAAAAAAAAAAAAAAAAAAAAAAAAAAA="

/-- A persisted record with a valid private key and no `deviceId` field. -/
def recMissingDeviceId : StoredDeviceRecord :=
  { privateKey := some zeroKeyB64, publicKey := some zeroKeyB64, deviceId := none }

/-! ### Handshake builder (`build_connect_request`,
src/tauri-app/src/main.rs:100-148).  The wall-clock read
(`SystemTime::now`, line 101) is an explicit parameter `signed_at`; the
Ed25519 primitive supplied by the `ed25519_dalek` crate is abstracted as
a deterministic signature scheme over byte lists. -/

/-- A deterministic signature scheme over byte lists: `sign` models
`SigningKey::sign` (Ed25519 signing is deterministic), `pub_key` models
`SigningKey::verifying_key().to_bytes()`, and `verify` the server-side
check. -/
structure SigScheme where
  sign : List Nat → List Nat → List Nat
  pub_key : List Nat → List Nat
  verify : List Nat → List Nat → List Nat → Bool

/-- Correctness of a signature scheme: a signature produced with a
secret key verifies against the derived public key. -/
def SigScheme.Correct (S : SigScheme) : Prop :=
  ∀ sk m, S.verify (S.pub_key sk) m (S.sign sk m) = true

/-- A concrete scheme used to instantiate witnesses. -/
def toyScheme : SigScheme :=
  { sign := fun sk m => sk ++ m
    pub_key := fun sk => sk
    verify := fun pk m sig => sig == pk ++ m }

/-- The fixed comma-joined scope string (src/tauri-app/src/main.rs:106). -/
def scopes : String := "operator.admin,operator.approvals,operator.pairing"

/-- The scopes array of the request envelope (src/tauri-app/src/main.rs:136). -/
def scopesList : List String :=
  ["operator.admin", "operator.approvals", "operator.pairing"]

/-- The canonical message (src/tauri-app/src/main.rs:108-114):
`format!("v2|{}|openclaw-control-ui|webchat|operator|{}|{}||{}",
device_id, scopes, signed_at, nonce)`. -/
def canonical_message (device_id : String) (signed_at : Nat) (nonce : String) : String :=
  "v2|" ++ device_id ++ "|openclaw-control-ui|webchat|operator|" ++ scopes ++ "|" ++
    Nat.repr signed_at ++ "||" ++ nonce

/-- Modelled from the spec (§6): the pipe-delimited concatenation
`v2|<deviceId>|<clientId>|<clientMode>|<role>|<scopes comma-joined>|`
`<signedAtEpochMillis>||<nonce>` with the reserved field before the
nonce left empty.  For comparison with `canonical_message`. -/
def canonical_message_spec (deviceId clientId clientMode role : String)
    (scopeList : List String) (signedAt : Nat) (nonce : String) : String :=
  "v2" ++ "|" ++ deviceId ++ "|" ++ clientId ++ "|" ++ clientMode ++ "|" ++ role ++ "|" ++
    String.intercalate "," scopeList ++ "|" ++ Nat.repr signedAt ++ "|" ++ "" ++ "|" ++ nonce

/-- Bytes of a string (`str::as_bytes`; modelled as code points — the
canonical message and all fixed fields are ASCII). -/
def strBytes (s : String) : List Nat := s.data.map Char.toNat

/-- The `client` descriptor object of the envelope
(src/tauri-app/src/main.rs:129-134). -/
structure ClientDescriptor where
  id : String
  version : String
  platform : String
  mode : String
deriving DecidableEq

/-- The `device` object of the envelope
(src/tauri-app/src/main.rs:137-143). -/
structure DeviceParams where
  id : String
  publicKey : String
  signature : String
  signedAt : Nat
  nonce : String
deriving DecidableEq

/-- The `connect` request envelope built by `build_connect_request`
(the `serde_json::json!` value, src/tauri-app/src/main.rs:122-147). -/
structure ConnectRequest where
  reqType : String
  id : String
  method : String
  minProtocol : Nat
  maxProtocol : Nat
  client : ClientDescriptor
  role : String
  scopes : List String
  device : DeviceParams
  caps : List String
  commands : List String
deriving DecidableEq

/-- `build_connect_request`: the canonical message, the raw signature
over its bytes (the locals of lines 108-120), and the request
envelope. -/
def build_connect_request (S : SigScheme) (req_id nonce : String)
    (dk : DeviceKeys) (signed_at : Nat) : String × List Nat × ConnectRequest :=
  let message := canonical_message dk.device_id signed_at nonce
  let signature := S.sign dk.signing_key (strBytes message)
  (message, signature,
   { reqType := "req"
     id := req_id
     method := "connect"
     minProtocol := 3
     maxProtocol := 3
     client := { id := "openclaw-control-ui", version := "1.0.0",
                 platform := "desktop", mode := "webchat" }
     role := "operator"
     scopes := scopesList
     device := { id := dk.device_id
                 publicKey := ⟨b64Encode (S.pub_key dk.signing_key)⟩
                 signature := ⟨b64Encode signature⟩
                 signedAt := signed_at
                 nonce := nonce }
     caps := []
     commands := [] })

/-- A concrete device identity for witnesses. -/
def dkZero : DeviceKeys := { signing_key := skZero, device_id := "00ff" }

/-! ### Session loop (`connect_websocket`, src/tauri-app/src/main.rs:150-271).
The inner read/write `tokio::select!` loop (lines 196-255) is modelled
as a step function over the loop's mutable state (`authenticated`,
`connect_sent`, lines 190-191) and one select outcome per iteration.
The boolean fed with each event tells whether a `write.send` performed
in that iteration succeeds (`Ok`) or fails (`Err`, which breaks the
loop).  A trace is the sequence of select outcomes of one connection. -/

/-- Marker of a challenge frame (src/tauri-app/src/main.rs:204). -/
def challengeMarker : List Char := "\"event\":\"connect.challenge\"".data

/-- Success marker of the ack branch (src/tauri-app/src/main.rs:220). -/
def okMarker : List Char := "\"ok\":true".data

/-- Request-id-correlation marker of the ack branch (line 220). -/
def idCpMarker : List Char := "\"id\":\"cp-".data

/-- Marker of an error frame (src/tauri-app/src/main.rs:224). -/
def errorMarker : List Char := "\"error\"".data

/-- Mutable state of the inner loop (lines 190-191). -/
structure ConnState where
  authenticated : Bool
  connect_sent : Bool
deriving DecidableEq

/-- Loop state right after the transport connects (lines 190-191). -/
def initialConnState : ConnState := { authenticated := false, connect_sent := false }

/-- Loop state while a connect request is outstanding (Authenticating). -/
def authenticatingState : ConnState := { authenticated := false, connect_sent := true }

/-- One `tokio::select!` outcome (lines 197-253): an inbound websocket
message (`read.next()`) or an outbound dequeue (`rx.recv()`). -/
inductive LoopEvent
  | textFrame (text : List Char)
  | closeFrame
  | otherFrame
  | readError
  | streamEnd
  | outbound (msg : List Char)
  | outboundClosed
deriving DecidableEq

/-- Observables of one iteration: the consumed event, wire sends
(`write.send`), and notifications (`app_handle.emit`). -/
inductive LoopObs
  | recv (ev : LoopEvent)
  | sendConnect (nonce : List Char)
  | sendChat (msg : List Char)
  | emitAuthenticated
  | emitError (text : List Char)
  | emitMessage (text : List Char)
deriving DecidableEq

/-- One iteration of the inner loop body (src/tauri-app/src/main.rs:197-253).
Returns the new state, the wire/emit observations, and whether the loop
continues (`false` = `break`, which leads to the reconnect path). -/
def step (st : ConnState) (ev : LoopEvent) (sendOk : Bool) :
    ConnState × List LoopObs × Bool :=
  match ev with
  | .textFrame text =>
    if !st.connect_sent && containsSub text challengeMarker then
      if sendOk then
        ({ st with connect_sent := true },
         [.sendConnect ((extract_nonce text).getD [])], true)
      else
        (st, [.sendConnect ((extract_nonce text).getD [])], false)
    else if containsSub text okMarker && containsSub text idCpMarker then
      ({ st with authenticated := true }, [.emitAuthenticated], true)
    else if containsSub text errorMarker then
      (st, [.emitError text], true)
    else if st.authenticated then
      (st, [.emitMessage text], true)
    else
      (st, [], true)
  | .closeFrame => (st, [], false)
  | .otherFrame => (st, [], true)
  | .readError => (st, [], false)
  | .streamEnd => (st, [], false)
  | .outbound msg =>
    if st.authenticated then
      if sendOk then (st, [.sendChat msg], true)
      else (st, [.sendChat msg], false)
    else
      (st, [], true)
  | .outboundClosed => (st, [], true)

/-- Run the inner loop on a trace of select outcomes, collecting the
log of consumed events and observations; a `break` stops the run. -/
def run (st : ConnState) : List (LoopEvent × Bool) → ConnState × List LoopObs
  | [] => (st, [])
  | (ev, ok) :: rest =>
    let r := step st ev ok
    if r.2.2 then
      (( run r.1 rest).1, .recv ev :: r.2.1 ++ (run r.1 rest).2)
    else
      (r.1, .recv ev :: r.2.1)

/-- Is an observation the sending of the connect request? -/
def isSendConnect : LoopObs → Bool
  | .sendConnect _ => true
  | _ => false

/-- A challenge frame carrying nonce `n1`. -/
def challengeFrameN1 : List Char :=
  "\x7b\"event\":\"connect.challenge\",\"payload\":\x7b\"nonce\":\"n1\"\x7d\x7d".data

/-- A challenge frame with no nonce field. -/
def challengeNoNonceFrame : List Char :=
  "\x7b\"type\":\"event\",\"event\":\"connect.challenge\"\x7d".data

/-- A server error frame. -/
def errorFrame : List Char := "\x7b\"error\":\"denied\"\x7d".data

/-- An ack frame matching the success and id-prefix markers. -/
def ackFrame : List Char := "\x7b\"id\":\"cp-1\",\"ok\":true\x7d".data

/-! ### Outbound queue (`channel::<String>(100)` at line 161 and
`send_chat_message`, src/tauri-app/src/main.rs:294-321). -/

/-- Capacity of the outbound channel (line 161). -/
def wsChannelCapacity : Nat := 100

/-- Outcome of `Sender::send(msg).await` on a bounded tokio mpsc
channel: an error only when the receiver is gone; a full open queue
makes the caller wait for capacity instead of returning. -/
inductive MpscSendResult
  | enqueued (q : List (List Char))
  | waits
  | closedError
deriving DecidableEq

/-- `tx.send(msg).await` (line 316) against queue contents `q`. -/
def mpscSend (closed : Bool) (q : List (List Char)) (msg : List Char) :
    MpscSendResult :=
  if closed then .closedError
  else if q.length < wsChannelCapacity then .enqueued (q ++ [msg])
  else .waits

/-- Result of the `send_chat_message` command as seen by the caller. -/
inductive SubmitResult
  | notConnected
  | sendErr
  | accepted (q : List (List Char))
  | blocked
deriving DecidableEq

/-- `send_chat_message` (src/tauri-app/src/main.rs:294-321): error when
no sender is stored ("WebSocket not connected"); otherwise
`tx.send(msg).await`.  `sender` is the stored handle together with the
channel's closed flag and current contents. -/
def send_chat_message (sender : Option (Bool × List (List Char)))
    (msg : List Char) : SubmitResult :=
  match sender with
  | none => .notConnected
  | some (closed, q) =>
    match mpscSend closed q msg with
    | .enqueued q2 => .accepted q2
    | .waits => .blocked
    | .closedError => .sendErr

/-- Does this select outcome take the ack branch from state `st`
(line 220: not the challenge branch, and both ack markers present)? -/
def isAckStep (st : ConnState) : LoopEvent → Bool
  | .textFrame text =>
    !(!st.connect_sent && containsSub text challengeMarker) &&
      (containsSub text okMarker && containsSub text idCpMarker)
  | _ => false

/-! ## Theorems -/

theorem findSub_nil (pat : List Char) :
    findSub pat [] = if pat.isPrefixOf ([] : List Char) then some 0 else none := by
  conv_lhs => unfold findSub

theorem findSub_cons (pat : List Char) (c : Char) (cs : List Char) :
    findSub pat (c :: cs) =
      if pat.isPrefixOf (c :: cs) then some 0 else (findSub pat cs).map (· + 1) := by
  conv_lhs => unfold findSub

theorem findSub_eq_some_iff (pat s : List Char) (i : Nat) :
    findSub pat s = some i ↔ FirstOccurrence pat s i := by
  induction s generalizing i with
  | nil =>
    constructor
    · intro h2
      rw [findSub_nil] at h2
      split at h2
      · cases h2
        rename_i hp
        exact ⟨by simpa [OccursAt] using hp, by omega⟩
      · cases h2
    · rintro ⟨hocc, hmin⟩
      have hp : pat.isPrefixOf ([] : List Char) = true := by
        simpa [OccursAt] using hocc
      have hi : i = 0 := by
        by_contra hne
        exact hmin 0 (by omega) (by simpa [OccursAt] using hp)
      subst hi
      rw [findSub_nil, if_pos hp]
  | cons c cs ih =>
    by_cases h : pat.isPrefixOf (c :: cs) = true
    · rw [findSub_cons, if_pos h]
      constructor
      · rintro h2
        cases h2
        exact ⟨by simpa [OccursAt] using h, by omega⟩
      · rintro ⟨hocc, hmin⟩
        have hi : i = 0 := by
          by_contra hne
          exact hmin 0 (by omega) (by simpa [OccursAt] using h)
        subst hi
        rfl
    · rw [findSub_cons, if_neg h]
      rw [Option.map_eq_some']
      constructor
      · rintro ⟨j, hj, rfl⟩
        rcases (ih j).mp hj with ⟨hocc, hmin⟩
        refine ⟨by simpa [OccursAt] using hocc, ?_⟩
        intro k hk
        match k with
        | 0 => simpa [OccursAt] using h
        | k + 1 =>
          have := hmin k (by omega)
          simpa [OccursAt] using this
      · rintro ⟨hocc, hmin⟩
        match i with
        | 0 => exact absurd (by simpa [OccursAt] using hocc) h
        | i + 1 =>
          refine ⟨i, (ih i).mpr ⟨by simpa [OccursAt] using hocc, ?_⟩, rfl⟩
          intro j hj
          have := hmin (j + 1) (by omega)
          simpa [OccursAt] using this

theorem findSub_eq_none_iff (pat s : List Char) :
    findSub pat s = none ↔ ∀ i, ¬ OccursAt pat s i := by
  induction s with
  | nil =>
    by_cases h : pat.isPrefixOf ([] : List Char) = true
    · rw [findSub_nil, if_pos h]
      constructor
      · rintro ⟨⟩
      · intro hall
        exact absurd (by simpa [OccursAt] using h) (hall 0)
    · rw [findSub_nil, if_neg h]
      constructor
      · intro _ i
        simpa [OccursAt] using h
      · intro _
        rfl
  | cons c cs ih =>
    by_cases h : pat.isPrefixOf (c :: cs) = true
    · rw [findSub_cons, if_pos h]
      constructor
      · rintro ⟨⟩
      · intro hall
        exact absurd (by simpa [OccursAt] using h) (hall 0)
    · rw [findSub_cons, if_neg h]
      rw [Option.map_eq_none']
      rw [ih]
      constructor
      · intro hall i
        match i with
        | 0 => simpa [OccursAt] using h
        | i + 1 => simpa [OccursAt] using hall i
      · intro hall i
        have := hall (i + 1)
        simpa [OccursAt] using this

theorem occursAt_singleton (c : Char) (r : List Char) (j : Nat) :
    OccursAt [c] r j ↔ r[j]? = some c := by
  unfold OccursAt
  rw [List.isPrefixOf_iff_prefix]
  constructor
  · rintro ⟨u, hu⟩
    have h : (r.drop j).head? = some c := by
      rw [← hu]
      rfl
    rwa [List.head?_drop] at h
  · intro h
    have h2 : (r.drop j).head? = some c := by rwa [List.head?_drop]
    cases hd : r.drop j with
    | nil => rw [hd] at h2; cases h2
    | cons a u =>
      rw [hd] at h2
      have ha : a = c := by simpa using h2
      exact ⟨u, by rw [ha]; simp [hd]⟩

theorem firstOccurrence_unique {pat s : List Char} {i j : Nat}
    (hi : FirstOccurrence pat s i) (hj : FirstOccurrence pat s j) : i = j := by
  rcases Nat.lt_trichotomy i j with h | h | h
  · exact absurd hi.1 (hj.2 i h)
  · exact h
  · exact absurd hj.1 (hi.2 j h)

theorem dq_data : "\"".data = [dq] := by decide

/-- `nonceMarker` has the 9 characters the Rust source skips over. -/
theorem nonceMarker_length : nonceMarker.length = 9 := by decide

theorem not_mem_of_no_occurrence {r : List Char}
    (h : ∀ j, ¬ OccursAt [dq] r j) : dq ∉ r := by
  intro hmem
  rcases List.mem_iff_getElem.mp hmem with ⟨j, hj, hje⟩
  exact h j ((occursAt_singleton dq r j).mpr (List.getElem?_eq_some.mpr ⟨hj, hje⟩))

/-- C10: `extract_nonce` is a total function (hence panic-free in the
model); it returns `some t` exactly when the marker `"nonce":"` occurs
in the input and a `"` character follows the first occurrence, with `t`
the characters strictly between the end of that first marker occurrence
and the next `"`; it returns `none` exactly when the marker is absent or
no closing quote follows it. -/
theorem extract_nonce_correct (s t : List Char) :
    (extract_nonce s = some t ↔
      ∃ i u, FirstOccurrence nonceMarker s i ∧
        s.drop (i + 9) = t ++ dq :: u ∧ dq ∉ t) ∧
    (extract_nonce s = none ↔
      (∀ i, ¬ OccursAt nonceMarker s i) ∨
      ∃ i, FirstOccurrence nonceMarker s i ∧ dq ∉ s.drop (i + 9)) := by
  cases hfind : findSub nonceMarker s with
  | none =>
    have hno := (findSub_eq_none_iff _ _).mp hfind
    have hext : extract_nonce s = none := by
      unfold extract_nonce
      rw [hfind]
    constructor
    · rw [hext]
      constructor
      · rintro ⟨⟩
      · rintro ⟨i, u, hfo, _, _⟩
        exact absurd hfo.1 (hno i)
    · rw [hext]
      exact ⟨fun _ => Or.inl hno, fun _ => rfl⟩
  | some i =>
    have hfo := (findSub_eq_some_iff nonceMarker s i).mp hfind
    cases hq : findSub "\"".data (s.drop (i + 9)) with
    | none =>
      have hnoq : ∀ j, ¬ OccursAt [dq] (s.drop (i + 9)) j := by
        have := (findSub_eq_none_iff _ _).mp hq
        rwa [dq_data] at this
      have hnomem : dq ∉ s.drop (i + 9) := not_mem_of_no_occurrence hnoq
      have hext : extract_nonce s = none := by
        unfold extract_nonce
        rw [hfind]
        simp only []
        rw [hq]
      constructor
      · rw [hext]
        constructor
        · rintro ⟨⟩
        · rintro ⟨i', u, hfo', heq, _⟩
          have hii : i = i' := firstOccurrence_unique hfo hfo'
          subst hii
          exact (hnomem (by
            rw [heq]
            exact List.mem_append_right _ (List.mem_cons_self _ _))).elim
      · rw [hext]
        exact ⟨fun _ => Or.inr ⟨i, hfo, hnomem⟩, fun _ => rfl⟩
    | some e =>
      have hqfo : FirstOccurrence [dq] (s.drop (i + 9)) e := by
        have := (findSub_eq_some_iff _ _ e).mp hq
        rwa [dq_data] at this
      rcases List.getElem?_eq_some.mp ((occursAt_singleton dq _ e).mp hqfo.1) with ⟨he, heq⟩
      have hsplit : s.drop (i + 9) =
          (s.drop (i + 9)).take e ++ dq :: (s.drop (i + 9)).drop (e + 1) := by
        conv_lhs => rw [← List.take_append_drop e (s.drop (i + 9))]
        rw [List.drop_eq_getElem_cons he, heq]
      have heqq : (s.drop (i + 9))[e]? = some dq := List.getElem?_eq_some.mpr ⟨he, heq⟩
      have hnotin : dq ∉ (s.drop (i + 9)).take e := by
        intro hmem
        rcases List.mem_iff_getElem.mp hmem with ⟨j, hj, hje⟩
        have hjlt : j < e := by
          simp only [List.length_take] at hj
          omega
        refine hqfo.2 j hjlt ((occursAt_singleton dq _ j).mpr ?_)
        have h3 : ((s.drop (i + 9)).take e)[j]? = some dq :=
          List.getElem?_eq_some.mpr ⟨hj, hje⟩
        rwa [List.getElem?_take, if_pos hjlt] at h3
      have hext : extract_nonce s = some ((s.drop (i + 9)).take e) := by
        unfold extract_nonce
        rw [hfind]
        simp only []
        rw [hq]
      constructor
      · rw [hext]
        constructor
        · rintro h2
          cases h2
          exact ⟨i, (s.drop (i + 9)).drop (e + 1), hfo, hsplit, hnotin⟩
        · rintro ⟨i', u, hfo', heq2, hnot2⟩
          have hii : i = i' := firstOccurrence_unique hfo hfo'
          subst hii
          have het : e = t.length := by
            rcases Nat.lt_trichotomy e t.length with h | h | h
            · exfalso
              apply hnot2
              have h2 : (t ++ dq :: u)[e]? = some dq := by
                rw [← heq2]
                exact heqq
              rw [List.getElem?_append_left h] at h2
              exact List.getElem?_mem h2
            · exact h
            · exfalso
              refine hqfo.2 t.length h ((occursAt_singleton dq _ t.length).mpr ?_)
              rw [heq2, List.getElem?_append_right (le_refl _)]
              simp
          subst het
          rw [heq2, List.take_left]
      · rw [hext]
        constructor
        · rintro ⟨⟩
        · rintro (hall | ⟨i', hfo', hnot2⟩)
          · exact absurd hfo.1 (hall i)
          · have hii : i = i' := firstOccurrence_unique hfo hfo'
            subst hii
            exact absurd (List.getElem?_mem heqq) hnot2

theorem beBytes_length (k n : Nat) : (beBytes k n).length = k := by
  simp [beBytes]

theorem beBytes_lt (k n : Nat) : ∀ b ∈ beBytes k n, b < 256 := by
  intro b hb
  simp only [beBytes, List.mem_map] at hb
  rcases hb with ⟨i, _, rfl⟩
  exact Nat.mod_lt _ (by omega)

theorem sha256_length (msg : List Nat) : (sha256 msg).length = 32 := by
  simp [sha256, beBytes_length]

theorem sha256_bytes_lt (msg : List Nat) : ∀ b ∈ sha256 msg, b < 256 := by
  intro b hb
  simp only [sha256, List.mem_append] at hb
  rcases hb with ((((((h | h) | h) | h) | h) | h) | h) | h <;>
    exact beBytes_lt _ _ b h

theorem hexDigit_mem (n : Nat) (h : n < 16) : hexDigit n ∈ hexDigits := by
  interval_cases n <;> decide

theorem hexEncode_lower (bs : List Nat) (h : ∀ b ∈ bs, b < 256) :
    ∀ c ∈ (hexEncode bs).data, c ∈ hexDigits := by
  intro c hc
  simp only [hexEncode, List.mem_flatMap] at hc
  rcases hc with ⟨b, hb, hcmem⟩
  have hblt := h b hb
  simp only [List.mem_cons, List.not_mem_nil, or_false] at hcmem
  rcases hcmem with h1 | h1
  · exact h1 ▸ hexDigit_mem _ (by omega)
  · exact h1 ▸ hexDigit_mem _ (Nat.mod_lt _ (by omega))

theorem hexEncode_length (bs : List Nat) :
    (hexEncode bs).length = 2 * bs.length := by
  simp only [hexEncode, String.length]
  induction bs with
  | nil => rfl
  | cons b t ih =>
    simp only [List.flatMap_cons, List.length_append, ih]
    simp
    omega

theorem b64DecodeChar_b64Char (s : Nat) (h : s < 64) :
    b64DecodeChar (b64Char s) = some s := by
  interval_cases s <;> decide

theorem b64Char_ne_padChar (s : Nat) (h : s < 64) : b64Char s ≠ padChar := by
  interval_cases s <;> decide

theorem b64Decode_b64Encode (bs : List Nat) (h : ∀ b ∈ bs, b < 256) :
    b64Decode (b64Encode bs) = some bs := by
  induction bs using b64Encode.induct with
  | case1 a b c rest ih =>
    have ha : a < 256 := h a (by simp)
    have hb : b < 256 := h b (by simp)
    have hc : c < 256 := h c (by simp)
    have hrest := ih (fun x hx => h x (by simp [hx]))
    have h1 : (a * 65536 + b * 256 + c) / 262144 < 64 := by omega
    have h2 : (a * 65536 + b * 256 + c) / 4096 % 64 < 64 := by omega
    have h3 : (a * 65536 + b * 256 + c) / 64 % 64 < 64 := by omega
    have h4 : (a * 65536 + b * 256 + c) % 64 < 64 := by omega
    rw [b64Encode, b64Decode]
    simp only [b64DecodeChar_b64Char _ h1, b64DecodeChar_b64Char _ h2,
      b64DecodeChar_b64Char _ h3, b64DecodeChar_b64Char _ h4,
      b64Char_ne_padChar _ h3, b64Char_ne_padChar _ h4, hrest,
      if_false, Option.map_some', Option.some.injEq, List.cons.injEq]
    refine ⟨by omega, by omega, by omega, trivial⟩
  | case2 a b =>
    have ha : a < 256 := h a (by simp)
    have hb : b < 256 := h b (by simp)
    have h1 : a / 4 < 64 := by omega
    have h2 : a % 4 * 16 + b / 16 < 64 := by omega
    have h3 : b % 16 * 4 < 64 := by omega
    rw [b64Encode, b64Decode]
    simp only [b64DecodeChar_b64Char _ h1, b64DecodeChar_b64Char _ h2,
      b64DecodeChar_b64Char _ h3, b64Char_ne_padChar _ h3,
      (by omega : b % 16 * 4 % 4 = 0), if_false, if_true, eq_self_iff_true,
      and_self, Option.some.injEq, List.cons.injEq]
    refine ⟨by omega, by omega, trivial⟩
  | case3 a =>
    have ha : a < 256 := h a (by simp)
    have h1 : a / 4 < 64 := by omega
    have h2 : a % 4 * 16 < 64 := by omega
    rw [b64Encode, b64Decode]
    simp only [b64DecodeChar_b64Char _ h1, b64DecodeChar_b64Char _ h2,
      (by omega : a % 4 * 16 % 16 = 0), if_false, if_true, eq_self_iff_true,
      and_self, Option.some.injEq, List.cons.injEq]
    refine ⟨by omega, trivial⟩
  | case4 => rfl

theorem b64Decode_length_of_b64Encode (bs : List Nat) (h : ∀ b ∈ bs, b < 256)
    (ds : List Nat) (hd : b64Decode (b64Encode bs) = some ds) : ds.length = bs.length := by
  rw [b64Decode_b64Encode bs h] at hd
  cases hd
  rfl

/-- C3: for a freshly generated identity, the persisted `deviceId` is
exactly the lowercase hex encoding of SHA-256 of the public key (all of
its 64 characters are lowercase hex digits), and loading the
just-persisted record returns the identical identity: same device id
and same signing key. -/
theorem create_then_load_roundtrip (pubOf : List Nat → List Nat) (sk : List Nat)
    (hb : ∀ b ∈ sk, b < 256) (hlen : sk.length = 32) :
    (create_device_keys pubOf sk).2.deviceId =
        some (hexEncode (sha256 (pubOf sk))) ∧
    (∀ c ∈ (create_device_keys pubOf sk).1.device_id.data, c ∈ hexDigits) ∧
    (create_device_keys pubOf sk).1.device_id.length = 64 ∧
    load_device_keys (create_device_keys pubOf sk).2 =
      .ok (create_device_keys pubOf sk).1 := by
  refine ⟨rfl, ?_, ?_, ?_⟩
  · intro c hc
    exact hexEncode_lower _ (sha256_bytes_lt _) c hc
  · show (hexEncode (sha256 (pubOf sk))).length = 64
    rw [hexEncode_length, sha256_length]
  · have hdec : b64Decode (String.mk (b64Encode sk)).data = some sk :=
      b64Decode_b64Encode sk hb
    simp [load_device_keys, create_device_keys, hdec, hlen]

/-- Witness for C3 at the concrete all-zero 32-byte key. -/
theorem create_then_load_roundtrip_witness :
    ((∀ b ∈ skZero, b < 256) ∧ skZero.length = 32) ∧
    ((create_device_keys pubZero skZero).2.deviceId =
        some (hexEncode (sha256 (pubZero skZero))) ∧
     (∀ c ∈ (create_device_keys pubZero skZero).1.device_id.data, c ∈ hexDigits) ∧
     (create_device_keys pubZero skZero).1.device_id.length = 64 ∧
     load_device_keys (create_device_keys pubZero skZero).2 =
       .ok (create_device_keys pubZero skZero).1) :=
  ⟨⟨by decide, by decide⟩,
   create_then_load_roundtrip pubZero skZero (by decide) (by decide)⟩

/-- C4 counterexample: a persisted record whose `deviceId` field is
missing is a malformed record by the claim, yet `load_device_keys` does
not return an error — it succeeds and silently substitutes the
fabricated device id `"unknown"`. -/
theorem load_missing_deviceId_fabricates :
    recMissingDeviceId.deviceId = none ∧
    load_device_keys recMissingDeviceId =
      .ok { signing_key := List.replicate 32 0, device_id := "unknown" } :=
  ⟨rfl, rfl⟩

/-- C4 (amended): a missing `privateKey` field, a private key that is
not valid base64, or one that does not decode to exactly 32 bytes is an
explicit distinct error, and on any load error `load_or_create` with an
existing record propagates the error without generating or persisting a
new identity; however a missing `deviceId` field alone is NOT an error:
loading succeeds with the substituted id `"unknown"`. -/
theorem load_malformed_record_behavior (rec : StoredDeviceRecord) :
    (rec.privateKey = none →
      load_device_keys rec = .error .missingPrivateKey) ∧
    (∀ pk64, rec.privateKey = some pk64 → b64Decode pk64.data = none →
      load_device_keys rec = .error .invalidBase64) ∧
    (∀ pk64 bytes, rec.privateKey = some pk64 →
      b64Decode pk64.data = some bytes → ¬ bytes.length = 32 →
      load_device_keys rec = .error .invalidKeyLength) ∧
    (∀ pubOf freshSk err, load_device_keys rec = .error err →
      load_or_create_device_keys pubOf (some rec) freshSk = .error err) ∧
    (∀ pk64 bytes, rec.privateKey = some pk64 →
      b64Decode pk64.data = some bytes → bytes.length = 32 →
      rec.deviceId = none →
      load_device_keys rec =
        .ok { signing_key := bytes, device_id := "unknown" }) := by
  refine ⟨?_, ?_, ?_, ?_, ?_⟩
  · intro h
    simp [load_device_keys, h]
  · intro pk64 h hdec
    simp [load_device_keys, h, hdec]
  · intro pk64 bytes h hdec hne
    simp [load_device_keys, h, hdec, hne]
  · intro pubOf freshSk err herr
    simp [load_or_create_device_keys, herr, Except.map]
  · intro pk64 bytes h hdec hl hid
    simp [load_device_keys, h, hdec, hl, hid]

/-- Witness for the amended C4: the empty record is rejected with the
explicit missing-private-key error. -/
theorem load_malformed_record_behavior_witness :
    load_device_keys { privateKey := none, publicKey := none, deviceId := none } =
      .error .missingPrivateKey :=
  (load_malformed_record_behavior ⟨none, none, none⟩).1 rfl

/-- C2: for every device identity, nonce, timestamp and request id, the
canonical message signed by the handshake builder is exactly the
pipe-delimited concatenation
`v2|<deviceId>|openclaw-control-ui|webchat|operator|<scopes comma-joined>|<signedAt>||<nonce>`
with the field before the nonce empty. -/
theorem canonical_message_exact (S : SigScheme) (req_id nonce : String)
    (dk : DeviceKeys) (signed_at : Nat) :
    (build_connect_request S req_id nonce dk signed_at).1 =
      canonical_message_spec dk.device_id "openclaw-control-ui" "webchat" "operator"
        scopesList signed_at nonce := by
  show canonical_message dk.device_id signed_at nonce = _
  have hint : String.intercalate "," scopesList = scopes := by decide
  unfold canonical_message canonical_message_spec
  rw [hint]
  rw [show ("v2|" : String) = "v2" ++ "|" from by decide,
      show ("|openclaw-control-ui|webchat|operator|" : String) =
        "|" ++ "openclaw-control-ui" ++ "|" ++ "webchat" ++ "|" ++ "operator" ++ "|"
        from by decide,
      show ("||" : String) = "|" ++ "" ++ "|" from by decide]
  simp only [String.append_assoc]

/-- C9: with a fixed identity, request id, nonce and timestamp the
handshake builder is deterministic — repeated calls yield the same
canonical message and the same signature — the signature is computed
over exactly the canonical message bytes with the identity signing key,
the envelope carries the public key derived from that same signing key,
and (for any correct signature scheme) the signature verifies against
that public key over the canonical message. -/
theorem build_connect_request_deterministic_and_verifies (S : SigScheme)
    (hS : S.Correct) (req_id nonce : String) (dk : DeviceKeys) (signed_at : Nat) :
    build_connect_request S req_id nonce dk signed_at =
      build_connect_request S req_id nonce dk signed_at ∧
    (build_connect_request S req_id nonce dk signed_at).1 =
      canonical_message dk.device_id signed_at nonce ∧
    (build_connect_request S req_id nonce dk signed_at).2.1 =
      S.sign dk.signing_key (strBytes (canonical_message dk.device_id signed_at nonce)) ∧
    (build_connect_request S req_id nonce dk signed_at).2.2.device.publicKey =
      String.mk (b64Encode (S.pub_key dk.signing_key)) ∧
    S.verify (S.pub_key dk.signing_key)
      (strBytes (build_connect_request S req_id nonce dk signed_at).1)
      (build_connect_request S req_id nonce dk signed_at).2.1 = true :=
  ⟨rfl, rfl, rfl, rfl, hS _ _⟩

/-- Witness for C9 with the concrete scheme and identity. -/
theorem build_connect_request_deterministic_and_verifies_witness :
    toyScheme.Correct ∧
    toyScheme.verify (toyScheme.pub_key dkZero.signing_key)
      (strBytes (build_connect_request toyScheme "cp-1" "n1" dkZero 5).1)
      (build_connect_request toyScheme "cp-1" "n1" dkZero 5).2.1 = true :=
  have hS : toyScheme.Correct := fun sk m => by
    simp [toyScheme, SigScheme.Correct]
  ⟨hS, (build_connect_request_deterministic_and_verifies toyScheme hS
    "cp-1" "n1" dkZero 5).2.2.2.2⟩

/-- C1 counterexample: a frame carrying the challenge marker but no
nonce field is NOT ignored — from the fresh connection state the client
sends a connect request (built with the empty nonce) and marks the
connect as sent, so the session state changes. -/
theorem challenge_without_nonce_not_ignored :
    extract_nonce challengeNoNonceFrame = none ∧
    step initialConnState (.textFrame challengeNoNonceFrame) true =
      ({ authenticated := false, connect_sent := true },
       [.sendConnect []], true) := by
  constructor
  · decide
  · decide

/-- C1 (amended): a frame containing the challenge marker but no nonce
field is not ignored: when no connect request was sent yet,
`extract_nonce` yields `none`, the code substitutes the empty string
(`unwrap_or("")`), builds and sends a SignedConnectRequest with the
empty nonce, and marks the connect as sent. -/
theorem challenge_without_nonce_sends_empty_nonce (st : ConnState)
    (text : List Char) (hcs : st.connect_sent = false)
    (hch : containsSub text challengeMarker = true)
    (hnon : extract_nonce text = none) :
    step st (.textFrame text) true =
      ({ st with connect_sent := true }, [.sendConnect []], true) := by
  simp [step, hcs, hch, hnon]

/-- Witness for the amended C1 at the concrete nonce-less frame. -/
theorem challenge_without_nonce_sends_empty_nonce_witness :
    step initialConnState (.textFrame challengeNoNonceFrame) true =
      ({ initialConnState with connect_sent := true },
       [.sendConnect []], true) :=
  challenge_without_nonce_sends_empty_nonce initialConnState
    challengeNoNonceFrame rfl (by decide) (by decide)

/-- C5 counterexample: submitting to a full queue on an open channel
does not return an error — the caller is suspended until space frees
(`tx.send(...).await` waits; it is not `try_send`). -/
theorem submit_full_queue_blocks :
    send_chat_message (some (false, List.replicate 100 [])) [] = .blocked ∧
    SubmitResult.blocked ≠ SubmitResult.sendErr ∧
    SubmitResult.blocked ≠ SubmitResult.notConnected := by
  refine ⟨by decide, by decide, by decide⟩

/-- C5 (amended): the outbound queue capacity is fixed at 100; a submit
with free space enqueues at the tail; a submit on a full open queue
suspends the caller until space frees rather than returning an error;
an error is returned synchronously only when no connection was started
(no stored sender) or the channel is closed. -/
theorem submit_behavior (closed : Bool) (q : List (List Char)) (msg : List Char) :
    wsChannelCapacity = 100 ∧
    send_chat_message none msg = .notConnected ∧
    (closed = true → send_chat_message (some (closed, q)) msg = .sendErr) ∧
    (closed = false → q.length < 100 →
      send_chat_message (some (closed, q)) msg = .accepted (q ++ [msg])) ∧
    (closed = false → ¬ q.length < 100 →
      send_chat_message (some (closed, q)) msg = .blocked) := by
  refine ⟨rfl, rfl, ?_, ?_, ?_⟩
  · intro hc
    simp [send_chat_message, mpscSend, hc]
  · intro hc hl
    simp [send_chat_message, mpscSend, hc, wsChannelCapacity, hl]
  · intro hc hl
    simp [send_chat_message, mpscSend, hc, wsChannelCapacity, hl]

/-- Witness for the amended C5: a submit with space enqueues. -/
theorem submit_behavior_witness :
    send_chat_message (some (false, [])) [] = .accepted [[]] :=
  (submit_behavior false [] []).2.2.2.1 rfl (by decide)

/-- C8 counterexample: an error frame received while Authenticating
leaves the state unchanged and the inner loop running — the connection
is not dropped and no reconnect is triggered. -/
theorem error_frame_does_not_disconnect :
    (step authenticatingState (.textFrame errorFrame) true).1 =
      authenticatingState ∧
    (step authenticatingState (.textFrame errorFrame) true).2.2 = true ∧
    (step authenticatingState (.textFrame errorFrame) true).2.1 =
      [.emitError errorFrame] := by
  refine ⟨by decide, by decide, by decide⟩

/-- C8 (amended): an Error frame received while Authenticating only
emits an error notification to observers: the session state is
unchanged and the inner loop continues on the same connection.  The
inner loop ends — entering the reconnect path — only on transport
events (close frame, read error, stream end) or a failed send, not on a
server error frame. -/
theorem error_frame_keeps_connection (st : ConnState) (text : List Char)
    (hcs : st.connect_sent = true)
    (hok : (containsSub text okMarker && containsSub text idCpMarker) = false)
    (herr : containsSub text errorMarker = true) (ok : Bool) :
    step st (.textFrame text) ok = (st, [.emitError text], true) ∧
    (step st .closeFrame ok).2.2 = false ∧
    (step st .readError ok).2.2 = false ∧
    (step st .streamEnd ok).2.2 = false := by
  refine ⟨?_, rfl, rfl, rfl⟩
  simp [step, hcs, hok, herr]

/-- Witness for the amended C8 at the concrete error frame. -/
theorem error_frame_keeps_connection_witness :
    step authenticatingState (.textFrame errorFrame) true =
      (authenticatingState, [.emitError errorFrame], true) ∧
    (step authenticatingState .closeFrame true).2.2 = false :=
  ⟨(error_frame_keeps_connection authenticatingState errorFrame rfl
      (by decide) (by decide) true).1,
   (error_frame_keeps_connection authenticatingState errorFrame rfl
      (by decide) (by decide) true).2.1⟩

theorem step_connect_sent_mono (st : ConnState) (ev : LoopEvent) (ok : Bool)
    (h : st.connect_sent = true) : (step st ev ok).1.connect_sent = true := by
  cases ev <;> simp [step, h] <;> split_ifs <;> simp [h]

theorem step_no_sendConnect_of_sent (st : ConnState) (ev : LoopEvent) (ok : Bool)
    (h : st.connect_sent = true) :
    (step st ev ok).2.1.countP isSendConnect = 0 := by
  cases ev <;> simp [step, h] <;> split_ifs <;>
    simp [isSendConnect, List.countP_cons, List.countP_nil]

theorem run_countP_zero_of_sent (tr : List (LoopEvent × Bool)) (st : ConnState)
    (h : st.connect_sent = true) :
    (run st tr).2.countP isSendConnect = 0 := by
  induction tr generalizing st with
  | nil => simp [run]
  | cons p rest ih =>
    obtain ⟨ev, ok⟩ := p
    rw [run]
    by_cases hc : (step st ev ok).2.2 = true
    · rw [if_pos hc]
      simp only [List.countP_cons, List.countP_append]
      rw [step_no_sendConnect_of_sent st ev ok h,
        ih _ (step_connect_sent_mono st ev ok h)]
      simp [isSendConnect]
    · rw [if_neg hc]
      simp only [List.countP_cons]
      rw [step_no_sendConnect_of_sent st ev ok h]
      simp [isSendConnect]

theorem step_connect_cases (st : ConnState) (ev : LoopEvent) (ok : Bool)
    (h : st.connect_sent = false) :
    ((step st ev ok).2.1.countP isSendConnect = 0 ∧
      (step st ev ok).1.connect_sent = false) ∨
    ((step st ev ok).2.1.countP isSendConnect = 1 ∧
      (step st ev ok).1.connect_sent = true) ∨
    ((step st ev ok).2.1.countP isSendConnect = 1 ∧
      (step st ev ok).2.2 = false) := by
  cases ev <;> simp [step, h] <;> split_ifs <;>
    simp [isSendConnect, List.countP_cons, List.countP_nil, h]

theorem run_connect_count_le_one (tr : List (LoopEvent × Bool)) (st : ConnState) :
    (run st tr).2.countP isSendConnect ≤ 1 := by
  induction tr generalizing st with
  | nil => simp [run]
  | cons p rest ih =>
    obtain ⟨ev, ok⟩ := p
    rw [run]
    by_cases hc : (step st ev ok).2.2 = true
    · rw [if_pos hc]
      simp only [List.countP_cons, List.countP_append]
      by_cases hsent : st.connect_sent = true
      · rw [step_no_sendConnect_of_sent st ev ok hsent,
          run_countP_zero_of_sent rest _ (step_connect_sent_mono st ev ok hsent)]
        simp [isSendConnect]
      · have hfalse : st.connect_sent = false := by
          revert hsent
          cases st.connect_sent <;> simp
        rcases step_connect_cases st ev ok hfalse with ⟨h1, h2⟩ | ⟨h1, h2⟩ | ⟨h1, h2⟩
        · rw [h1]
          simpa [isSendConnect] using ih (step st ev ok).1
        · rw [h1, run_countP_zero_of_sent rest _ h2]
          simp [isSendConnect]
        · rw [h2] at hc
          exact absurd hc Bool.false_ne_true
    · rw [if_neg hc]
      simp only [List.countP_cons]
      by_cases hsent : st.connect_sent = true
      · rw [step_no_sendConnect_of_sent st ev ok hsent]
        simp [isSendConnect]
      · have hfalse : st.connect_sent = false := by
          revert hsent
          cases st.connect_sent <;> simp
        rcases step_connect_cases st ev ok hfalse with ⟨h1, _⟩ | ⟨h1, _⟩ | ⟨h1, _⟩ <;>
          rw [h1] <;> simp [isSendConnect]

/-- C6: within one connection, at most one connect request is ever
sent: every trace from the fresh connection state yields at most one
`sendConnect` on the wire; the first Challenge frame produces exactly
one connect request (and moves to the connect-sent state); and a
challenge frame processed in any state where the connect request was
already sent produces no connect send at all. -/
theorem at_most_one_connect_request (tr : List (LoopEvent × Bool))
    (text : List Char) (ok : Bool) (st : ConnState)
    (hch : containsSub text challengeMarker = true)
    (hsent : st.connect_sent = true) :
    (run initialConnState tr).2.countP isSendConnect ≤ 1 ∧
    step initialConnState (.textFrame text) true =
      ({ authenticated := false, connect_sent := true },
       [.sendConnect ((extract_nonce text).getD [])], true) ∧
    (step st (.textFrame text) ok).2.1.countP isSendConnect = 0 := by
  refine ⟨run_connect_count_le_one tr initialConnState, ?_,
    step_no_sendConnect_of_sent st _ ok hsent⟩
  simp [step, initialConnState, hch]

/-- Witness for C6: a trace delivering the same challenge twice. -/
theorem at_most_one_connect_request_witness :
    (run initialConnState
        [(.textFrame challengeFrameN1, true),
         (.textFrame challengeFrameN1, true)]).2.countP isSendConnect ≤ 1 ∧
    step initialConnState (.textFrame challengeFrameN1) true =
      ({ authenticated := false, connect_sent := true },
       [.sendConnect ((extract_nonce challengeFrameN1).getD [])], true) ∧
    (step authenticatingState (.textFrame challengeFrameN1) true).2.1.countP
      isSendConnect = 0 :=
  at_most_one_connect_request _ challengeFrameN1 true authenticatingState
    (by decide) rfl

theorem append_split_of_not_mem {α : Type} {A B l1 l2 : List α} {x : α}
    (h : A ++ B = l1 ++ x :: l2) (hx : x ∉ A) :
    ∃ l1p, l1 = A ++ l1p ∧ B = l1p ++ x :: l2 := by
  induction A generalizing l1 with
  | nil => exact ⟨l1, rfl, h⟩
  | cons a as ih =>
    cases l1 with
    | nil =>
      simp only [List.nil_append] at h
      rw [List.cons_append] at h
      have hax : a = x := (List.cons.injEq _ _ _ _ ▸ h).1
      exact absurd (hax ▸ List.mem_cons_self a as) hx
    | cons b bs =>
      rw [List.cons_append, List.cons_append] at h
      have hab : a = b := (List.cons.injEq _ _ _ _ ▸ h).1
      have htail : as ++ B = bs ++ x :: l2 := (List.cons.injEq _ _ _ _ ▸ h).2
      obtain ⟨l1p, hbs, hB⟩ :=
        ih htail (fun hm => hx (List.mem_cons_of_mem a hm))
      exact ⟨l1p, by rw [List.cons_append, ← hab, hbs], hB⟩

theorem step_no_sendChat_of_unauth (st : ConnState) (ev : LoopEvent) (ok : Bool)
    (h : st.authenticated = false) (m : List Char) :
    LoopObs.sendChat m ∉ (step st ev ok).2.1 := by
  cases ev <;> simp [step, h] <;> split_ifs <;> simp

theorem step_preserves_unauth (st : ConnState) (ev : LoopEvent) (ok : Bool)
    (h : st.authenticated = false) (hna : isAckStep st ev = false) :
    (step st ev ok).1.authenticated = false := by
  cases ev <;> simp [step, isAckStep, h] at hna ⊢ <;> split_ifs with h1 h2 <;>
    simp_all

theorem chat_send_preceded_aux (tr : List (LoopEvent × Bool)) (st : ConnState)
    (hst : st.authenticated = false) :
    ∀ l1 l2 m, (run st tr).2 = l1 ++ LoopObs.sendChat m :: l2 →
      ∃ t, LoopObs.recv (.textFrame t) ∈ l1 ∧
        containsSub t okMarker = true ∧ containsSub t idCpMarker = true := by
  induction tr generalizing st with
  | nil =>
    intro l1 l2 m h
    rw [run] at h
    exact absurd h.symm (List.append_ne_nil_of_right_ne_nil l1 (by simp))
  | cons p rest ih =>
    obtain ⟨ev, ok⟩ := p
    intro l1 l2 m h
    rw [run] at h
    have hnm : LoopObs.sendChat m ∉
        (LoopObs.recv ev :: (step st ev ok).2.1) := by
      intro hmem
      rcases List.mem_cons.mp hmem with h1 | h1
      · cases h1
      · exact step_no_sendChat_of_unauth st ev ok hst m h1
    by_cases hc : (step st ev ok).2.2 = true
    · rw [if_pos hc] at h
      simp only at h
      have h2 : (LoopObs.recv ev :: (step st ev ok).2.1) ++
          (run (step st ev ok).1 rest).2 = l1 ++ LoopObs.sendChat m :: l2 := by
        rw [List.cons_append]
        exact h
      obtain ⟨l1p, hl1, hlog⟩ := append_split_of_not_mem h2 hnm
      by_cases hack : isAckStep st ev = true
      · cases ev with
        | textFrame text =>
          refine ⟨text, ?_, ?_, ?_⟩
          · rw [hl1]
            exact List.mem_append_left _ (List.mem_cons_self _ _)
          · simp [isAckStep] at hack
            exact hack.2.1
          · simp [isAckStep] at hack
            exact hack.2.2
        | closeFrame => simp [isAckStep] at hack
        | otherFrame => simp [isAckStep] at hack
        | readError => simp [isAckStep] at hack
        | streamEnd => simp [isAckStep] at hack
        | outbound msg => simp [isAckStep] at hack
        | outboundClosed => simp [isAckStep] at hack
      · have hna : isAckStep st ev = false := by
          revert hack
          cases isAckStep st ev <;> simp
        obtain ⟨t, htm, h1, h2⟩ :=
          ih (step st ev ok).1 (step_preserves_unauth st ev ok hst hna) l1p l2 m hlog
        exact ⟨t, by rw [hl1]; exact List.mem_append_right _ htm, h1, h2⟩
    · rw [if_neg hc] at h
      simp only at h
      exact absurd (h ▸ List.mem_append_right l1 (List.mem_cons_self _ _)) hnm

/-- C7: within a single connection, no caller-submitted outbound message
is ever sent on the wire before an Ack frame has been received: in the
log of any run from the fresh connection state, every `sendChat` is
preceded by the receipt of a text frame carrying the ack markers.
Moreover a message dequeued while the session is not authenticated is
discarded on the spot: the dequeue produces no wire send, leaves the
state unchanged, and the rest of the run is exactly as if the message
had never existed (it is never delivered later). -/
theorem no_chat_send_before_ack :
    (∀ tr l1 l2 m, (run initialConnState tr).2 = l1 ++ LoopObs.sendChat m :: l2 →
      ∃ t, LoopObs.recv (.textFrame t) ∈ l1 ∧
        containsSub t okMarker = true ∧ containsSub t idCpMarker = true) ∧
    (∀ st msg ok, st.authenticated = false →
      step st (.outbound msg) ok = (st, [], true)) ∧
    (∀ st msg ok tr, st.authenticated = false →
      run st ((LoopEvent.outbound msg, ok) :: tr) =
        ((run st tr).1, LoopObs.recv (.outbound msg) :: (run st tr).2)) := by
  refine ⟨fun tr => chat_send_preceded_aux tr initialConnState rfl, ?_, ?_⟩
  · intro st msg ok h
    simp [step, h]
  · intro st msg ok tr h
    rw [run]
    simp [step, h]

/-- Witness for C7: a run that acknowledges and then sends one chat
message; the ack receipt precedes the send in the log. -/
theorem no_chat_send_before_ack_witness :
    ∃ t, LoopObs.recv (.textFrame t) ∈
        [LoopObs.recv (.textFrame ackFrame), LoopObs.emitAuthenticated,
         LoopObs.recv (.outbound "hi".data)] ∧
      containsSub t okMarker = true ∧ containsSub t idCpMarker = true :=
  no_chat_send_before_ack.1
    [(.textFrame ackFrame, true), (.outbound "hi".data, true)]
    [.recv (.textFrame ackFrame), .emitAuthenticated,
     .recv (.outbound "hi".data)]
    [] "hi".data (by decide)

end ClawPen
